import Mathlib

/-!
A verification development for the positional-audio scheduling layer in
`src/Audio.cpp` (endless-sky). The C++ is shallowly embedded: the
request-coalescing arithmetic (`QueueEntry`) is modelled over the real
numbers, the per-frame scheduler (`Audio::Step`, `Audio::Update`,
`Audio::Play`) as pure functions over an explicit state, and the background
loader (`Load`, `Name`, `Audio::Progress`) over lists and strings.
-/

namespace AudioModel

/-- The 2D `Point` class: a pair of coordinates (idealised as reals). -/
abbrev Pt := ℝ × ℝ

/-- `Point::Dot`: the dot product of two points. -/
def Pt.dot (a b : Pt) : ℝ := a.1 * b.1 + a.2 * b.2

/-- Scalar multiplication `d * position` on `Point`, componentwise. -/
noncomputable def Pt.scale (c : ℝ) (a : Pt) : Pt := (c * a.1, c * a.2)

/-- `Point` divided by a scalar (`sum / weight`), componentwise. -/
noncomputable def Pt.divBy (a : Pt) (c : ℝ) : Pt := (a.1 / c, a.2 / c)

/-- `Point::Length`: the Euclidean length. -/
noncomputable def Pt.length (a : Pt) : ℝ := Real.sqrt (Pt.dot a a)

/-- The coalescer `QueueEntry` (src/Audio.cpp:31-44): a running weighted
position sum, a running weighted speed and a running total weight. -/
structure QueueEntry where
sum : Pt
speed : ℝ
weight : ℝ

/-- A default-constructed `QueueEntry`: all fields zero. -/
noncomputable def QueueEntry.init : QueueEntry := ⟨(0, 0), 0, 0⟩

/-- `QueueEntry::Add(position, velocity)` (src/Audio.cpp:319-325):
`d = 1 / max(1, position.Dot(position))`; `sum += d * position`;
`speed += d * sqrt(d) * position.Dot(velocity)`; `weight += d`. -/
noncomputable def QueueEntry.addPV (e : QueueEntry) (position velocity : Pt) : QueueEntry :=
let d : ℝ := 1 / max 1 (Pt.dot position position)
{ sum := e.sum + Pt.scale d position
  speed := e.speed + d * Real.sqrt d * Pt.dot position velocity
  weight := e.weight + d }

/-- `QueueEntry::Add(const QueueEntry &)` (src/Audio.cpp:329-334):
fieldwise accumulation. -/
noncomputable def QueueEntry.addEntry (e other : QueueEntry) : QueueEntry :=
{ sum := e.sum + other.sum, speed := e.speed + other.speed, weight := e.weight + other.weight }

/-- `QueueEntry::Position()` (src/Audio.cpp:300-303):
`weight ? (sum / weight) : sum`. -/
noncomputable def QueueEntry.position (e : QueueEntry) : Pt :=
if e.weight = 0 then e.sum else Pt.divBy e.sum e.weight

/-- `QueueEntry::Velocity()` (src/Audio.cpp:307-315): zero when the resolved
position has zero length, else `pos * (speed / length)`. -/
noncomputable def QueueEntry.velocity (e : QueueEntry) : Pt :=
if Pt.length e.position = 0 then e.position
else Pt.scale (e.speed / Pt.length e.position) e.position

/-- The entry obtained by folding a sequence of `Add(position, velocity)`
calls into a fresh (default-constructed) entry. -/
noncomputable def QueueEntry.ofCalls (cs : List (Pt × Pt)) : QueueEntry :=
cs.foldl (fun e c => e.addPV c.1 c.2) QueueEntry.init

/-- The weight `w = 1 / max(1, |position|²)` a single contribution receives. -/
noncomputable def wOf (p : Pt) : ℝ := 1 / max 1 (Pt.dot p p)

/-- The speed increment a single `Add(position, velocity)` call contributes:
`w * sqrt(w) * (position · velocity)`. -/
noncomputable def speedOf (c : Pt × Pt) : ℝ :=
wOf c.1 * Real.sqrt (wOf c.1) * Pt.dot c.1 c.2

lemma foldl_addPV (cs : List (Pt × Pt)) (e : QueueEntry) :
(cs.foldl (fun a c => a.addPV c.1 c.2) e).weight = e.weight + (cs.map fun c => wOf c.1).sum ∧
(cs.foldl (fun a c => a.addPV c.1 c.2) e).sum = e.sum + (cs.map fun c => Pt.scale (wOf c.1) c.1).sum ∧
(cs.foldl (fun a c => a.addPV c.1 c.2) e).speed = e.speed + (cs.map fun c => speedOf c).sum := by
induction cs generalizing e with
| nil => simp
| cons c rest ih =>
rcases ih (e.addPV c.1 c.2) with ⟨h1, h2, h3⟩
refine ⟨?_, ?_, ?_⟩
· rw [List.foldl_cons, h1]
  simp only [QueueEntry.addPV, List.map_cons, List.sum_cons, wOf]
  ring
· rw [List.foldl_cons, h2]
  simp only [QueueEntry.addPV, List.map_cons, List.sum_cons, wOf]
  abel
· rw [List.foldl_cons, h3]
  simp only [QueueEntry.addPV, List.map_cons, List.sum_cons, speedOf, wOf]
  ring

lemma ofCalls_weight (cs : List (Pt × Pt)) :
(QueueEntry.ofCalls cs).weight = (cs.map fun c => wOf c.1).sum := by
have h := (foldl_addPV cs QueueEntry.init).1
simpa [QueueEntry.ofCalls, QueueEntry.init] using h

lemma ofCalls_sum (cs : List (Pt × Pt)) :
(QueueEntry.ofCalls cs).sum = (cs.map fun c => Pt.scale (wOf c.1) c.1).sum := by
have h := (foldl_addPV cs QueueEntry.init).2.1
have hz : ((0, 0) : Pt) = 0 := rfl
simpa [QueueEntry.ofCalls, QueueEntry.init, hz] using h

lemma ofCalls_speed (cs : List (Pt × Pt)) :
(QueueEntry.ofCalls cs).speed = (cs.map fun c => speedOf c).sum := by
have h := (foldl_addPV cs QueueEntry.init).2.2
simpa [QueueEntry.ofCalls, QueueEntry.init] using h

lemma dot_self_nonneg (p : Pt) : 0 ≤ Pt.dot p p :=
add_nonneg (mul_self_nonneg _) (mul_self_nonneg _)

lemma wOf_eq_one_of_length_le_one (p : Pt) (h : Pt.length p ≤ 1) : wOf p = 1 := by
have hd : Pt.dot p p ≤ 1 := by
  have hs : Real.sqrt (Pt.dot p p) ≤ 1 := h
  have := Real.sq_sqrt (dot_self_nonneg p)
  calc Pt.dot p p = Real.sqrt (Pt.dot p p) ^ 2 := this.symm
    _ ≤ 1 ^ 2 := by
      exact pow_le_pow_left₀ (Real.sqrt_nonneg _) hs 2
    _ = 1 := one_pow 2
simp [wOf, max_eq_left hd]

/-- C1: folding any sequence of `Add(position, velocity)` calls into one
`QueueEntry` gives each contribution the weight `w = 1 / max(1, |position|²)`
(weight exactly 1 whenever `|position| ≤ 1`); `Position()` is the w-weighted
average of the contributed positions when the total weight is nonzero, and
the raw accumulated sum when the total weight is zero. -/
theorem c1_position_is_weighted_average (cs : List (Pt × Pt)) :
(∀ p : Pt, Pt.length p ≤ 1 → wOf p = 1) ∧
(QueueEntry.ofCalls cs).weight = (cs.map fun c => wOf c.1).sum ∧
(QueueEntry.ofCalls cs).sum = (cs.map fun c => Pt.scale (wOf c.1) c.1).sum ∧
((QueueEntry.ofCalls cs).weight ≠ 0 →
  (QueueEntry.ofCalls cs).position =
    Pt.divBy (cs.map fun c => Pt.scale (wOf c.1) c.1).sum (cs.map fun c => wOf c.1).sum) ∧
((QueueEntry.ofCalls cs).weight = 0 →
  (QueueEntry.ofCalls cs).position = (QueueEntry.ofCalls cs).sum) := by
refine ⟨wOf_eq_one_of_length_le_one, ofCalls_weight cs, ofCalls_sum cs, ?_, ?_⟩
· intro h
  rw [QueueEntry.position, if_neg h, ofCalls_sum, ofCalls_weight]
· intro h
  rw [QueueEntry.position, if_pos h]

/-- C2: the accumulated speed of a `QueueEntry` built from `Add` calls is the
sum of the contributions `w * sqrt(w) * (position · velocity)`, and
`Velocity()` equals that accumulated speed times the normalised resolved
position (`Position() / |Position()|`); when the resolved position has zero
length, `Velocity()` returns that zero-length position. -/
theorem c2_velocity_is_scaled_normalised_position (cs : List (Pt × Pt)) :
(QueueEntry.ofCalls cs).speed = (cs.map speedOf).sum ∧
(Pt.length (QueueEntry.ofCalls cs).position ≠ 0 →
  (QueueEntry.ofCalls cs).velocity =
    Pt.scale (QueueEntry.ofCalls cs).speed
      (Pt.divBy (QueueEntry.ofCalls cs).position
        (Pt.length (QueueEntry.ofCalls cs).position))) ∧
(Pt.length (QueueEntry.ofCalls cs).position = 0 →
  (QueueEntry.ofCalls cs).velocity = (QueueEntry.ofCalls cs).position) := by
refine ⟨ofCalls_speed cs, ?_, ?_⟩
· intro h
  rw [QueueEntry.velocity, if_neg h]
  set e := QueueEntry.ofCalls cs
  have : ∀ x : ℝ, e.speed / Pt.length e.position * x = e.speed * (x / Pt.length e.position) := by
    intro x
    rw [div_mul_eq_mul_div, mul_div_assoc]
  simp only [Pt.scale, Pt.divBy, this]
· intro h
  rw [QueueEntry.velocity, if_pos h]

/-- A sound asset as the scheduler sees it: its identity (the `Sound *`
pointer, modelled as a key), its `Sound::IsLooping()` flag and its
`Sound::Buffer()` handle (0 when the buffer is not yet loaded). -/
structure Sound where
key : Nat
looping : Bool
buffer : Nat
deriving DecidableEq

/-- The `Source` class (src/Audio.cpp:46-57): a sound bound to a backend
channel identifier. -/
structure Source where
sound : Sound
source : Nat
deriving DecidableEq

/-- A backend call the scheduler issues during `Audio::Step`: `Source::Move`
(recording the queue entry whose position/velocity are applied),
`alSourcePlay`, or `alSourceStop`. -/
inductive Ev (E : Type) where
| move (id : Nat) (entry : E)
| play (id : Nat)
| stop (id : Nat)
deriving DecidableEq

/-- Lookup in a sound → entry map (`std::map::find`), the map modelled as an
association list. -/
def lookupQ {E : Type} (q : List (Sound × E)) (s : Sound) : Option E :=
(q.find? fun p => decide (p.1 = s)).map (·.2)

/-- `std::map::erase` of the entry `find` returned: remove the first entry
with the given key. -/
def eraseQ {E : Type} (q : List (Sound × E)) (s : Sound) : List (Sound × E) :=
q.eraseP fun p => decide (p.1 = s)

/-- `map[key]` followed by a mutation `f` of the mapped entry: an existing
key keeps its place and gets `f` applied; a missing key is inserted with `f`
applied to a default-constructed entry `dflt`. -/
def adjustQ {E : Type} (dflt : E) (f : E → E) (s : Sound) : List (Sound × E) → List (Sound × E)
| [] => [(s, f dflt)]
| p :: rest => if p.1 = s then (s, f p.2) :: rest else p :: adjustQ dflt f s rest

/-- Result of the advance phase of `Audio::Step`: the retained sources
(`newSources`), the remaining queue, the channel ids pushed onto
`recycledSources`, and the backend calls issued. -/
structure AdvanceOut (E : Type) where
newSources : List Source
queue : List (Sound × E)
recycled : List Nat
events : List (Ev E)
deriving DecidableEq

/-- The advance phase of `Audio::Step` (src/Audio.cpp:203-231): for each
active source in order — a looping sound whose entry is still in the queue is
kept, `Move`d to that entry and the entry erased; a looping sound with no
entry is stopped and recycled; a non-looping sound is kept exactly when the
backend (`playing`) reports it still playing, else recycled. -/
def advancePhase {E : Type} (playing : Nat → Bool) :
    List Source → List (Sound × E) → AdvanceOut E
| [], q => ⟨[], q, [], []⟩
| src :: rest, q =>
  if src.sound.looping then
    match lookupQ q src.sound with
    | some e =>
      let r := advancePhase playing rest (eraseQ q src.sound)
      ⟨src :: r.newSources, r.queue, r.recycled, Ev.move src.source e :: r.events⟩
    | none =>
      let r := advancePhase playing rest q
      ⟨r.newSources, r.queue, src.source :: r.recycled, Ev.stop src.source :: r.events⟩
  else
    if playing src.source then
      let r := advancePhase playing rest q
      ⟨src :: r.newSources, r.queue, r.recycled, r.events⟩
    else
      let r := advancePhase playing rest q
      ⟨r.newSources, r.queue, src.source :: r.recycled, r.events⟩

/-- Result of the allocate phase of `Audio::Step`: the final `sources`,
`recycledSources` and `maxSources`, the index of the next unconsumed
`alGenSources` answer, and the backend calls issued. -/
structure AllocOut (E : Type) where
sources : List Source
recycled : List Nat
maxSources : Nat
nextGen : Nat
events : List (Ev E)
deriving DecidableEq

/-- The allocate phase of `Audio::Step` (src/Audio.cpp:235-258): for each
remaining queue entry in order, reuse the back of `recycledSources` if any;
otherwise stop if the source count has reached `maxSources`, else ask the
backend (`gen k` is the id the k-th `alGenSources` call returns, 0 meaning
failure); on failure lower `maxSources` to the current source count and stop.
Each allocated channel is `Move`d to the entry and played. -/
def allocLoop {E : Type} (gen : Nat → Nat) :
    List (Sound × E) → List Source → List Nat → Nat → Nat → AllocOut E
| [], srcs, rec, cap, k => ⟨srcs, rec, cap, k, []⟩
| (snd, e) :: rest, srcs, rec, cap, k =>
  if rec.isEmpty then
    if cap ≤ srcs.length then ⟨srcs, rec, cap, k, []⟩
    else if gen k = 0 then ⟨srcs, rec, srcs.length, k + 1, []⟩
    else
      let r := allocLoop gen rest (srcs ++ [⟨snd, gen k⟩]) rec cap (k + 1)
      ⟨r.sources, r.recycled, r.maxSources, r.nextGen,
        Ev.move (gen k) e :: Ev.play (gen k) :: r.events⟩
  else
    let g := rec.getLastD 0
    let r := allocLoop gen rest (srcs ++ [⟨snd, g⟩]) rec.dropLast cap k
    ⟨r.sources, r.recycled, r.maxSources, r.nextGen,
      Ev.move g e :: Ev.play g :: r.events⟩

/-- The scheduler state the `Audio` namespace globals hold
(src/Audio.cpp:63-82), for entry payloads `E` and point type `P`. -/
structure AudioState (E P : Type) where
queue : List (Sound × E)
deferred : List (Sound × E)
sources : List Source
recycledSources : List Nat
maxSources : Nat
volume : ℚ
listener : P
listenerVelocity : P
deriving DecidableEq

/-- What a call to `Audio::Step` produces: the new state, the index of the
next unconsumed `alGenSources` answer, and the backend calls issued. -/
structure StepOut (E P : Type) where
state : AudioState E P
nextGen : Nat
events : List (Ev E)
deriving DecidableEq

/-- `Audio::Step` (src/Audio.cpp:194-260). `tid` is the calling thread,
`mainTid` the thread id `Init` recorded; any other caller returns at once.
Otherwise: advance phase over `sources` and `queue`, allocate phase over what
remains (recycled ids pushed by the advance phase are appended to the
existing `recycledSources`), and the queue is cleared. -/
def step {E P : Type} (playing : Nat → Bool) (gen : Nat → Nat) (k0 : Nat)
    (tid mainTid : Nat) (st : AudioState E P) : StepOut E P :=
if tid ≠ mainTid then ⟨st, k0, []⟩
else
  let a := advancePhase playing st.sources st.queue
  let l := allocLoop gen a.queue a.newSources (st.recycledSources ++ a.recycled) st.maxSources k0
  ⟨{ st with
      sources := l.sources
      recycledSources := l.recycled
      maxSources := l.maxSources
      queue := [] },
    l.nextGen, a.events ++ l.events⟩

/-- `Audio::Update` (src/Audio.cpp:154-162): store the listener state, fold
every `deferred` entry into the corresponding `queue` entry with
`QueueEntry::Add(const QueueEntry &)` (the `merge` parameter; `map[key]`
default-constructs `dflt` for a missing key), then clear `deferred`. Note:
the source takes no lock in this function. -/
def update {E P : Type} (merge : E → E → E) (dflt : E) (pos vel : P)
    (st : AudioState E P) : AudioState E P :=
{ st with
  listener := pos
  listenerVelocity := vel
  queue := st.deferred.foldl (fun q p => adjustQ dflt (fun old => merge old p.2) p.1 q) st.queue
  deferred := [] }

/-- `Audio::Play(sound, position, velocity)` (src/Audio.cpp:176-188): return
unchanged when the sound pointer is null, its buffer unloaded, or the global
volume zero; otherwise fold the listener-relative contribution into `queue`
on the main thread and into `deferred` on any other thread. -/
def play {E P : Type} [Sub P] (add : E → P → P → E) (dflt : E)
    (sound : Option Sound) (position velocity : P) (tid mainTid : Nat)
    (st : AudioState E P) : AudioState E P :=
match sound with
| none => st
| some s =>
  if s.buffer = 0 ∨ st.volume = 0 then st
  else
    let f := fun old => add old (position - st.listener) (velocity - st.listenerVelocity)
    if tid = mainTid then { st with queue := adjustQ dflt f s st.queue }
    else { st with deferred := adjustQ dflt f s st.deferred }

lemma lookupQ_nil {E : Type} (s : Sound) : lookupQ ([] : List (Sound × E)) s = none := rfl

lemma lookupQ_cons {E : Type} (p : Sound × E) (rest : List (Sound × E)) (s : Sound) :
    lookupQ (p :: rest) s = if p.1 = s then some p.2 else lookupQ rest s := by
by_cases hp : p.1 = s
· simp [lookupQ, List.find?_cons_of_pos, hp]
· simp [lookupQ, List.find?_cons_of_neg, hp]

lemma lookupQ_adjustQ_self {E : Type} (dflt : E) (f : E → E) (s : Sound)
    (q : List (Sound × E)) :
    lookupQ (adjustQ dflt f s q) s = some (f ((lookupQ q s).getD dflt)) := by
induction q with
| nil => simp [adjustQ, lookupQ_cons, lookupQ_nil]
| cons p rest ih =>
  by_cases hp : p.1 = s
  · simp [adjustQ, hp, lookupQ_cons]
  · simp [adjustQ, hp, lookupQ_cons, ih]

lemma lookupQ_adjustQ_ne {E : Type} (dflt : E) (f : E → E) (s s2 : Sound)
    (h : s2 ≠ s) (q : List (Sound × E)) :
    lookupQ (adjustQ dflt f s q) s2 = lookupQ q s2 := by
have hs2 : ¬(s = s2) := fun hs => h hs.symm
induction q with
| nil => simp [adjustQ, lookupQ_cons, lookupQ_nil, hs2]
| cons p rest ih =>
  by_cases hp : p.1 = s
  · have hp2 : ¬(p.1 = s2) := by rw [hp]; exact hs2
    simp [adjustQ, hp, lookupQ_cons, hs2, hp2]
  · simp [adjustQ, hp, lookupQ_cons, ih]

/-- The fold `Audio::Update` performs over `deferred` (src/Audio.cpp:159-161). -/
def mergeDeferred {E : Type} (merge : E → E → E) (dflt : E)
    (ds : List (Sound × E)) (q : List (Sound × E)) : List (Sound × E) :=
ds.foldl (fun q p => adjustQ dflt (fun old => merge old p.2) p.1 q) q

lemma lookupQ_mergeDeferred_not_mem {E : Type} (merge : E → E → E) (dflt : E)
    (ds : List (Sound × E)) (q : List (Sound × E)) (s : Sound)
    (h : ∀ p ∈ ds, p.1 ≠ s) :
    lookupQ (mergeDeferred merge dflt ds q) s = lookupQ q s := by
induction ds generalizing q with
| nil => rfl
| cons p rest ih =>
  have hp : p.1 ≠ s := h p (List.mem_cons_self p rest)
  have hr : ∀ p2 ∈ rest, p2.1 ≠ s := fun p2 hm => h p2 (List.mem_cons_of_mem p hm)
  calc lookupQ (mergeDeferred merge dflt (p :: rest) q) s
      = lookupQ (adjustQ dflt (fun old => merge old p.2) p.1 q) s := ih _ hr
    _ = lookupQ q s := lookupQ_adjustQ_ne _ _ _ _ (fun hs => hp hs.symm) q

lemma lookupQ_mergeDeferred {E : Type} (merge : E → E → E) (dflt : E)
    (ds : List (Sound × E)) (q : List (Sound × E)) (s : Sound)
    (hd : (ds.map Prod.fst).Nodup) :
    lookupQ (mergeDeferred merge dflt ds q) s =
      match lookupQ ds s, lookupQ q s with
      | some d, some e => some (merge e d)
      | some d, none => some (merge dflt d)
      | none, _ => lookupQ q s := by
induction ds generalizing q with
| nil =>
  simp only [lookupQ_nil]
  rfl
| cons p rest ih =>
  rcases List.nodup_cons.mp hd with ⟨hnm, hnd⟩
  by_cases hp : p.1 = s
  · have hr : ∀ p2 ∈ rest, p2.1 ≠ s := by
      intro p2 hm he
      exact hnm (hp ▸ he ▸ List.mem_map_of_mem Prod.fst hm)
    have h1 : lookupQ (mergeDeferred merge dflt (p :: rest) q) s
        = lookupQ (adjustQ dflt (fun old => merge old p.2) p.1 q) s :=
      lookupQ_mergeDeferred_not_mem merge dflt rest _ s hr
    rw [h1, hp, lookupQ_adjustQ_self, lookupQ_cons, if_pos hp]
    cases hq : lookupQ q s <;> simp [hq]
  · have h1 : mergeDeferred merge dflt (p :: rest) q
        = mergeDeferred merge dflt rest (adjustQ dflt (fun old => merge old p.2) p.1 q) := rfl
    rw [h1, ih _ hnd, lookupQ_cons, if_neg hp,
      lookupQ_adjustQ_ne _ _ _ _ (fun hs => hp hs.symm) q]

/-- C5: after `Audio::Update`, `deferred` is empty and every deferred entry
has been folded into the live queue entry of the same sound with the
coalescer's entry-merge operation (a missing live entry starts from the
default-constructed one); sounds with no deferred entry keep their live
entry unchanged. -/
theorem c5_update_merges_deferred_into_live {E P : Type} (merge : E → E → E) (dflt : E)
    (pos vel : P) (st : AudioState E P)
    (hd : (st.deferred.map Prod.fst).Nodup) :
    (update merge dflt pos vel st).deferred = [] ∧
    ∀ s : Sound,
      lookupQ (update merge dflt pos vel st).queue s =
        match lookupQ st.deferred s, lookupQ st.queue s with
        | some d, some e => some (merge e d)
        | some d, none => some (merge dflt d)
        | none, _ => lookupQ st.queue s := by
refine ⟨rfl, fun s => ?_⟩
exact lookupQ_mergeDeferred merge dflt st.deferred st.queue s hd

/-- Witness for C5 at a concrete state: two deferred requests, one for a
sound already in the live queue (its live entry 10 absorbs the deferred 5)
and one for a new sound (a default entry 100 absorbs the deferred 7). -/
theorem c5_witness :
    (update (fun a b => a + 2 * b) 100 (3 : Int) 4
        (⟨[(⟨1, true, 1⟩, 10)], [(⟨1, true, 1⟩, 5), (⟨2, false, 1⟩, 7)],
          [], [], 255, 1, 0, 0⟩ : AudioState Nat Int)).deferred = [] ∧
    lookupQ (update (fun a b => a + 2 * b) 100 (3 : Int) 4
        (⟨[(⟨1, true, 1⟩, 10)], [(⟨1, true, 1⟩, 5), (⟨2, false, 1⟩, 7)],
          [], [], 255, 1, 0, 0⟩ : AudioState Nat Int)).queue ⟨1, true, 1⟩ = some 20 ∧
    lookupQ (update (fun a b => a + 2 * b) 100 (3 : Int) 4
        (⟨[(⟨1, true, 1⟩, 10)], [(⟨1, true, 1⟩, 5), (⟨2, false, 1⟩, 7)],
          [], [], 255, 1, 0, 0⟩ : AudioState Nat Int)).queue ⟨2, false, 1⟩ = some 114 := by
obtain ⟨h1, h2⟩ := c5_update_merges_deferred_into_live (fun a b => a + 2 * b) 100 (3 : Int) 4
  (⟨[(⟨1, true, 1⟩, 10)], [(⟨1, true, 1⟩, 5), (⟨2, false, 1⟩, 7)],
    [], [], 255, 1, 0, 0⟩ : AudioState Nat Int) (by decide)
exact ⟨h1, (h2 ⟨1, true, 1⟩).trans (by decide), (h2 ⟨2, false, 1⟩).trans (by decide)⟩

/-- C7: `Audio::Play` with a null sound, an unloaded buffer, or zero global
volume leaves the whole state (queue, deferred, channels) unchanged, and
`Audio::Step` never consults the volume: the channels it retains are the
same at any volume. -/
theorem c7_play_guard_is_noop {E P : Type} [Sub P] (add : E → P → P → E) (dflt : E)
    (sound : Option Sound) (position velocity : P) (tid mainTid : Nat)
    (st : AudioState E P)
    (h : sound = none ∨ (∃ s, sound = some s ∧ s.buffer = 0) ∨ st.volume = 0) :
    play add dflt sound position velocity tid mainTid st = st ∧
    (∀ (playing : Nat → Bool) (gen : Nat → Nat) (k0 : Nat) (v : ℚ),
      (step playing gen k0 mainTid mainTid { st with volume := v }).state.sources
        = (step playing gen k0 mainTid mainTid st).state.sources) := by
constructor
· rcases h with h | ⟨s, rfl, hb⟩ | h
  · simp [play, h]
  · simp [play, hb]
  · cases sound with
    | none => simp [play]
    | some s => simp [play, h]
· intro playing gen k0 v
  simp [step]

/-- Witness for C7 at a concrete state: a sound whose buffer is unloaded. -/
theorem c7_witness :
    play (fun (e : Nat) (_ _ : Int) => e + 1) 0 (some ⟨5, false, 0⟩) 3 4 0 0
        (⟨[], [], [⟨⟨5, false, 1⟩, 9⟩], [], 255, 1, 0, 0⟩ : AudioState Nat Int)
      = ⟨[], [], [⟨⟨5, false, 1⟩, 9⟩], [], 255, 1, 0, 0⟩ ∧
    (∀ (playing : Nat → Bool) (gen : Nat → Nat) (k0 : Nat) (v : ℚ),
      (step playing gen k0 0 0
          ({ (⟨[], [], [⟨⟨5, false, 1⟩, 9⟩], [], 255, 1, 0, 0⟩ : AudioState Nat Int) with
            volume := v })).state.sources
        = (step playing gen k0 0 0
            (⟨[], [], [⟨⟨5, false, 1⟩, 9⟩], [], 255, 1, 0, 0⟩ : AudioState Nat Int)).state.sources) :=
c7_play_guard_is_noop (fun (e : Nat) (_ _ : Int) => e + 1) 0 (some ⟨5, false, 0⟩) 3 4 0 0 _
  (Or.inr (Or.inl ⟨⟨5, false, 0⟩, rfl, rfl⟩))

/-- C10: `Audio::Step` called from any thread other than the one `Init`
recorded returns immediately: the state is unchanged (no channel advanced,
stopped, recycled or allocated; the queue not drained), no backend call is
made and no `alGenSources` answer is consumed. -/
theorem c10_step_foreign_thread_is_noop {E P : Type} (playing : Nat → Bool)
    (gen : Nat → Nat) (k0 tid mainTid : Nat) (st : AudioState E P)
    (h : tid ≠ mainTid) :
    step playing gen k0 tid mainTid st = ⟨st, k0, []⟩ := by
simp [step, h]

/-- Witness for C10 at a concrete state with a pending queue entry and an
active channel. -/
theorem c10_witness :
    step (fun _ => true) (fun _ => 7) 0 1 0
        (⟨[(⟨2, false, 1⟩, 4)], [], [⟨⟨5, false, 1⟩, 9⟩], [], 255, 1, 0, 0⟩
          : AudioState Nat Int)
      = ⟨⟨[(⟨2, false, 1⟩, 4)], [], [⟨⟨5, false, 1⟩, 9⟩], [], 255, 1, 0, 0⟩, 0, []⟩ :=
c10_step_foreign_thread_is_noop (fun _ => true) (fun _ => 7) 0 1 0 _ (by decide)

lemma eraseQ_cons {E : Type} (p : Sound × E) (rest : List (Sound × E)) (s : Sound) :
    eraseQ (p :: rest) s = if p.1 = s then rest else p :: eraseQ rest s := by
by_cases hp : p.1 = s <;> simp [eraseQ, List.eraseP_cons, hp]

lemma lookupQ_eraseQ_ne {E : Type} (q : List (Sound × E)) (s s2 : Sound) (h : s2 ≠ s) :
    lookupQ (eraseQ q s) s2 = lookupQ q s2 := by
induction q with
| nil => rfl
| cons p rest ih =>
  by_cases hp : p.1 = s
  · have hp2 : ¬(p.1 = s2) := by rw [hp]; exact fun hs => h hs.symm
    rw [eraseQ_cons, if_pos hp, lookupQ_cons, if_neg hp2]
  · rw [eraseQ_cons, if_neg hp, lookupQ_cons, lookupQ_cons, ih]

lemma eraseQ_keys_nodup {E : Type} (q : List (Sound × E)) (s : Sound)
    (hq : (q.map Prod.fst).Nodup) : ((eraseQ q s).map Prod.fst).Nodup :=
((List.eraseP_sublist q).map Prod.fst).nodup hq

lemma filter_eraseQ {E : Type} (q : List (Sound × E)) (s : Sound) (f : Sound × E → Bool)
    (hq : (q.map Prod.fst).Nodup) :
    (eraseQ q s).filter f = q.filter fun p => !(decide (p.1 = s)) && f p := by
induction q with
| nil => rfl
| cons p rest ih =>
  rcases List.nodup_cons.mp hq with ⟨hm, hnd⟩
  by_cases hp : p.1 = s
  · rw [eraseQ_cons, if_pos hp]
    have hp2 : (!(decide (p.1 = s)) && f p) = false := by simp [hp]
    rw [List.filter_cons, hp2]
    simp only [Bool.false_eq_true, if_false]
    refine List.filter_congr fun p2 hm2 => ?_
    have : ¬(p2.1 = s) := by
      intro he
      exact hm (hp ▸ he ▸ List.mem_map_of_mem Prod.fst hm2)
    simp [this]
  · rw [eraseQ_cons, if_neg hp]
    have hp2 : (!(decide (p.1 = s)) && f p) = f p := by simp [hp]
    rw [List.filter_cons, List.filter_cons, hp2, ih hnd]

/-- Whether the advance phase of `Audio::Step` keeps an active source: a
looping sound is kept exactly when the drained queue still holds an entry for
it, a non-looping sound exactly when the backend reports it playing. -/
def keepSource {E : Type} (playing : Nat → Bool) (q : List (Sound × E)) (src : Source) : Bool :=
if src.sound.looping then (lookupQ q src.sound).isSome else playing src.source

/-- The backend call the advance phase issues for one active source: `Move`
to the queue entry for a kept looping sound, `alSourceStop` for a looping
sound with no entry, nothing for a non-looping sound. -/
def advanceEvent {E : Type} (q : List (Sound × E)) (src : Source) : Option (Ev E) :=
if src.sound.looping then
  match lookupQ q src.sound with
  | some e => some (Ev.move src.source e)
  | none => some (Ev.stop src.source)
else none

lemma keepSource_eraseQ {E : Type} (playing : Nat → Bool) (q : List (Sound × E))
    (s : Sound) (src : Source) (h : src.sound.looping = true → src.sound ≠ s) :
    keepSource playing (eraseQ q s) src = keepSource playing q src := by
by_cases hl : src.sound.looping
· rw [keepSource, keepSource, lookupQ_eraseQ_ne q s src.sound (h hl)]
· rw [keepSource, keepSource, if_neg hl, if_neg hl]

lemma advanceEvent_eraseQ {E : Type} (q : List (Sound × E)) (s : Sound) (src : Source)
    (h : src.sound.looping = true → src.sound ≠ s) :
    advanceEvent (eraseQ q s) src = advanceEvent q src := by
by_cases hl : src.sound.looping
· rw [advanceEvent, advanceEvent, lookupQ_eraseQ_ne q s src.sound (h hl)]
· rw [advanceEvent, advanceEvent, if_neg hl, if_neg hl]

lemma looping_nodup_cons (src : Source) (rest : List Source)
    (hs : (((src :: rest).filter fun s2 => s2.sound.looping).map Source.sound).Nodup) :
    ((rest.filter fun s2 => s2.sound.looping).map Source.sound).Nodup ∧
    (src.sound.looping = true →
      ∀ src2 ∈ rest, src2.sound.looping = true → src2.sound ≠ src.sound) := by
by_cases hl : src.sound.looping
· simp only [List.filter_cons, hl, if_true, List.map_cons] at hs
  rcases List.nodup_cons.mp hs with ⟨hm, hnd⟩
  refine ⟨hnd, fun _ src2 hm2 hl2 he => hm ?_⟩
  rw [← he]
  exact List.mem_map_of_mem Source.sound (List.mem_filter.mpr ⟨hm2, hl2⟩)
· simp only [List.filter_cons, hl, if_false] at hs
  exact ⟨hs, fun h2 => absurd h2 hl⟩

/-- C3: characterisation of the advance phase of `Audio::Step`, for states
where the active looping sources carry pairwise distinct sounds (the
invariant `Step` maintains: a retained looping channel consumes its queue
entry before the allocate phase could create a second one — non-looping
sources may freely share a sound) and queue keys are distinct (`std::map`).
A source is retained exactly when its sound is looping and still queued
(then it is `Move`d to that entry and the entry leaves the queue; its
channel identifier survives verbatim and no stop or play is issued for it)
or non-looping and still reported playing; every other source has its
identifier pushed onto the recycle list, a looping one after an
`alSourceStop`. -/
theorem c3_advance_phase_characterisation {E : Type} (playing : Nat → Bool)
    (sources : List Source) (q : List (Sound × E))
    (hs : ((sources.filter fun s2 => s2.sound.looping).map Source.sound).Nodup)
    (hq : (q.map Prod.fst).Nodup) :
    (advancePhase playing sources q).newSources = sources.filter (keepSource playing q) ∧
    (advancePhase playing sources q).queue =
      (q.filter fun p => !(p.1.looping && sources.any fun src => decide (src.sound = p.1))) ∧
    (advancePhase playing sources q).recycled =
      (sources.filter fun src => !keepSource playing q src).map Source.source ∧
    (advancePhase playing sources q).events = sources.filterMap (advanceEvent q) := by
induction sources generalizing q with
| nil => simp [advancePhase]
| cons src rest ih =>
  rcases looping_nodup_cons src rest hs with ⟨hsrest, hneL⟩
  by_cases hl : src.sound.looping
  · have hne : ∀ src2 ∈ rest, src2.sound.looping = true → src2.sound ≠ src.sound := hneL hl
    cases hfind : lookupQ q src.sound with
    | some e =>
      obtain ⟨ih1, ih2, ih3, ih4⟩ :=
        ih (eraseQ q src.sound) hsrest (eraseQ_keys_nodup q src.sound hq)
      have hunf : advancePhase playing (src :: rest) q =
          ⟨src :: (advancePhase playing rest (eraseQ q src.sound)).newSources,
            (advancePhase playing rest (eraseQ q src.sound)).queue,
            (advancePhase playing rest (eraseQ q src.sound)).recycled,
            Ev.move src.source e :: (advancePhase playing rest (eraseQ q src.sound)).events⟩ := by
        simp [advancePhase, hl, hfind]
      have hkeep : keepSource playing q src = true := by
        simp [keepSource, hl, hfind]
      have hfilter : rest.filter (keepSource playing (eraseQ q src.sound))
          = rest.filter (keepSource playing q) :=
        List.filter_congr fun src2 hm2 => keepSource_eraseQ playing q _ src2 (hne src2 hm2)
      refine ⟨?_, ?_, ?_, ?_⟩
      · rw [hunf, List.filter_cons, hkeep]
        simp only [if_true]
        rw [ih1, hfilter]
      · rw [hunf]
        simp only
        rw [ih2, filter_eraseQ _ _ _ hq]
        refine List.filter_congr fun p hm2 => ?_
        by_cases hp : p.1 = src.sound
        · simp [hp, hl, List.any_cons]
        · have hsp : ¬(src.sound = p.1) := fun he => hp he.symm
          simp [hp, hsp, List.any_cons]
      · rw [hunf]
        simp only
        rw [ih3, List.filter_cons]
        have : (!keepSource playing q src) = false := by rw [hkeep]; rfl
        rw [this]
        simp only [Bool.false_eq_true, if_false]
        congr 1
        exact List.filter_congr fun src2 hm2 => by
          rw [keepSource_eraseQ playing q _ src2 (hne src2 hm2)]
      · rw [hunf]
        simp only
        rw [ih4, List.filterMap_cons]
        have : advanceEvent q src = some (Ev.move src.source e) := by
          simp [advanceEvent, hl, hfind]
        rw [this]
        congr 1
        exact List.filterMap_congr fun src2 hm2 =>
          advanceEvent_eraseQ q _ src2 (hne src2 hm2)
    | none =>
      obtain ⟨ih1, ih2, ih3, ih4⟩ := ih q hsrest hq
      have hunf : advancePhase playing (src :: rest) q =
          ⟨(advancePhase playing rest q).newSources,
            (advancePhase playing rest q).queue,
            src.source :: (advancePhase playing rest q).recycled,
            Ev.stop src.source :: (advancePhase playing rest q).events⟩ := by
        simp [advancePhase, hl, hfind]
      have hkeep : keepSource playing q src = false := by
        simp [keepSource, hl, hfind]
      have hnotin : ∀ p ∈ q, ¬(p.1 = src.sound) := by
        intro p hm he
        have : (q.find? fun p => decide (p.1 = src.sound)) = none := by
          by_contra hco
          rcases Option.ne_none_iff_exists.mp hco with ⟨w, hw⟩
          rw [lookupQ, ← hw] at hfind
          simp at hfind
        exact absurd (by simpa using he) (by simpa using List.find?_eq_none.mp this p hm)
      refine ⟨?_, ?_, ?_, ?_⟩
      · rw [hunf]
        simp only
        rw [ih1, List.filter_cons, hkeep]
        simp
      · rw [hunf]
        simp only
        rw [ih2]
        refine List.filter_congr fun p hm2 => ?_
        have hsp : ¬(src.sound = p.1) := fun he => hnotin p hm2 he.symm
        simp [hsp]
      · rw [hunf]
        simp only
        rw [ih3, List.filter_cons]
        have : (!keepSource playing q src) = true := by rw [hkeep]; rfl
        rw [this]
        simp
      · rw [hunf]
        simp only
        rw [ih4, List.filterMap_cons]
        have : advanceEvent q src = some (Ev.stop src.source) := by
          simp [advanceEvent, hl, hfind]
        rw [this]
  · obtain ⟨ih1, ih2, ih3, ih4⟩ := ih q hsrest hq
    have hlb : src.sound.looping = false := by simpa using hl
    by_cases hp : playing src.source
    · have hunf : advancePhase playing (src :: rest) q =
          ⟨src :: (advancePhase playing rest q).newSources,
            (advancePhase playing rest q).queue,
            (advancePhase playing rest q).recycled,
            (advancePhase playing rest q).events⟩ := by
        simp [advancePhase, hlb, hp]
      have hkeep : keepSource playing q src = true := by
        simp [keepSource, hlb, hp]
      refine ⟨?_, ?_, ?_, ?_⟩
      · rw [hunf]
        simp only
        rw [ih1, List.filter_cons, hkeep]
        simp
      · rw [hunf]
        simp only
        rw [ih2]
        refine List.filter_congr fun p hm2 => ?_
        by_cases hsp : src.sound = p.1
        · have hlp : p.1.looping = false := by rw [← hsp]; exact hlb
          simp [hsp, hlp]
        · simp [hsp]
      · rw [hunf]
        simp only
        rw [ih3, List.filter_cons]
        have : (!keepSource playing q src) = false := by rw [hkeep]; rfl
        rw [this]
        simp only [Bool.false_eq_true, if_false]
      · rw [hunf]
        simp only
        rw [ih4, List.filterMap_cons]
        have : advanceEvent q src = none := by
          simp [advanceEvent, hlb]
        rw [this]
    · have hunf : advancePhase playing (src :: rest) q =
          ⟨(advancePhase playing rest q).newSources,
            (advancePhase playing rest q).queue,
            src.source :: (advancePhase playing rest q).recycled,
            (advancePhase playing rest q).events⟩ := by
        simp [advancePhase, hlb, hp]
      have hkeep : keepSource playing q src = false := by
        simp [keepSource, hlb, hp]
      refine ⟨?_, ?_, ?_, ?_⟩
      · rw [hunf]
        simp only
        rw [ih1, List.filter_cons, hkeep]
        simp
      · rw [hunf]
        simp only
        rw [ih2]
        refine List.filter_congr fun p hm2 => ?_
        by_cases hsp : src.sound = p.1
        · have hlp : p.1.looping = false := by rw [← hsp]; exact hlb
          simp [hsp, hlp]
        · simp [hsp]
      · rw [hunf]
        simp only
        rw [ih3, List.filter_cons]
        have : (!keepSource playing q src) = true := by rw [hkeep]; rfl
        rw [this]
        simp
      · rw [hunf]
        simp only
        rw [ih4, List.filterMap_cons]
        have : advanceEvent q src = none := by
          simp [advanceEvent, hlb]
        rw [this]

/-- Witness for C3 at a concrete frame: two looping channels (sound 1 queued,
sound 2 not) and two non-looping channels that share the same sound 3 — the
reachable duplicate a still-playing non-looping sound requested again
produces — of which channel 11 is still playing and channel 13 is not.
Channels 10 and 11 survive verbatim, the queue entry for sound 1 is consumed
and `Move`d, channels 12 (after a stop) and 13 are recycled. -/
theorem c3_witness :
    (advancePhase (fun i => decide (i = 11))
        [⟨⟨1, true, 1⟩, 10⟩, ⟨⟨2, true, 1⟩, 12⟩, ⟨⟨3, false, 1⟩, 11⟩, ⟨⟨3, false, 1⟩, 13⟩]
        [(⟨1, true, 1⟩, (5 : Nat)), (⟨9, false, 1⟩, 7)]).newSources =
      [⟨⟨1, true, 1⟩, 10⟩, ⟨⟨3, false, 1⟩, 11⟩] ∧
    (advancePhase (fun i => decide (i = 11))
        [⟨⟨1, true, 1⟩, 10⟩, ⟨⟨2, true, 1⟩, 12⟩, ⟨⟨3, false, 1⟩, 11⟩, ⟨⟨3, false, 1⟩, 13⟩]
        [(⟨1, true, 1⟩, (5 : Nat)), (⟨9, false, 1⟩, 7)]).queue = [(⟨9, false, 1⟩, 7)] ∧
    (advancePhase (fun i => decide (i = 11))
        [⟨⟨1, true, 1⟩, 10⟩, ⟨⟨2, true, 1⟩, 12⟩, ⟨⟨3, false, 1⟩, 11⟩, ⟨⟨3, false, 1⟩, 13⟩]
        [(⟨1, true, 1⟩, (5 : Nat)), (⟨9, false, 1⟩, 7)]).recycled = [12, 13] ∧
    (advancePhase (fun i => decide (i = 11))
        [⟨⟨1, true, 1⟩, 10⟩, ⟨⟨2, true, 1⟩, 12⟩, ⟨⟨3, false, 1⟩, 11⟩, ⟨⟨3, false, 1⟩, 13⟩]
        [(⟨1, true, 1⟩, (5 : Nat)), (⟨9, false, 1⟩, 7)]).events =
      [Ev.move 10 5, Ev.stop 12] := by
obtain ⟨h1, h2, h3, h4⟩ := c3_advance_phase_characterisation (fun i => decide (i = 11))
  [⟨⟨1, true, 1⟩, 10⟩, ⟨⟨2, true, 1⟩, 12⟩, ⟨⟨3, false, 1⟩, 11⟩, ⟨⟨3, false, 1⟩, 13⟩]
  [(⟨1, true, 1⟩, (5 : Nat)), (⟨9, false, 1⟩, 7)] (by decide) (by decide)
exact ⟨h1.trans (by decide), h2.trans (by decide), h3.trans (by decide), h4.trans (by decide)⟩

/-- C4: behaviour of the allocate phase of `Audio::Step`. (a) the live queue
is cleared at the end of every frame; (b) an entry reuses the back of the
recycle list when one exists (no backend call); (c) with no recycled id and
the source count at the cap, allocation stops without asking the backend;
(d) a null `alGenSources` answer lowers the cap to the current source count,
consumes only that one answer, and allocates nothing further this frame;
(e) a non-null answer allocates, `Move`s and plays that channel and
continues; (f) if the backend never returns null, the cap is unchanged. -/
theorem c4_allocate_phase {E P : Type} :
    (∀ (playing : Nat → Bool) (gen : Nat → Nat) (k0 tid : Nat) (st : AudioState E P),
      (step playing gen k0 tid tid st).state.queue = []) ∧
    (∀ (gen : Nat → Nat) (snd : Sound) (e : E) (rest : List (Sound × E))
        (srcs : List Source) (rec : List Nat) (cap k : Nat), rec ≠ [] →
      allocLoop gen ((snd, e) :: rest) srcs rec cap k =
        ⟨(allocLoop gen rest (srcs ++ [⟨snd, rec.getLastD 0⟩]) rec.dropLast cap k).sources,
          (allocLoop gen rest (srcs ++ [⟨snd, rec.getLastD 0⟩]) rec.dropLast cap k).recycled,
          (allocLoop gen rest (srcs ++ [⟨snd, rec.getLastD 0⟩]) rec.dropLast cap k).maxSources,
          (allocLoop gen rest (srcs ++ [⟨snd, rec.getLastD 0⟩]) rec.dropLast cap k).nextGen,
          Ev.move (rec.getLastD 0) e :: Ev.play (rec.getLastD 0) ::
            (allocLoop gen rest (srcs ++ [⟨snd, rec.getLastD 0⟩]) rec.dropLast cap k).events⟩) ∧
    (∀ (gen : Nat → Nat) (snd : Sound) (e : E) (rest : List (Sound × E))
        (srcs : List Source) (cap k : Nat), cap ≤ srcs.length →
      allocLoop gen ((snd, e) :: rest) srcs [] cap k = ⟨srcs, [], cap, k, []⟩) ∧
    (∀ (gen : Nat → Nat) (snd : Sound) (e : E) (rest : List (Sound × E))
        (srcs : List Source) (cap k : Nat), srcs.length < cap → gen k = 0 →
      allocLoop gen ((snd, e) :: rest) srcs [] cap k = ⟨srcs, [], srcs.length, k + 1, []⟩) ∧
    (∀ (gen : Nat → Nat) (snd : Sound) (e : E) (rest : List (Sound × E))
        (srcs : List Source) (cap k : Nat), srcs.length < cap → gen k ≠ 0 →
      allocLoop gen ((snd, e) :: rest) srcs [] cap k =
        ⟨(allocLoop gen rest (srcs ++ [⟨snd, gen k⟩]) [] cap (k + 1)).sources,
          (allocLoop gen rest (srcs ++ [⟨snd, gen k⟩]) [] cap (k + 1)).recycled,
          (allocLoop gen rest (srcs ++ [⟨snd, gen k⟩]) [] cap (k + 1)).maxSources,
          (allocLoop gen rest (srcs ++ [⟨snd, gen k⟩]) [] cap (k + 1)).nextGen,
          Ev.move (gen k) e :: Ev.play (gen k) ::
            (allocLoop gen rest (srcs ++ [⟨snd, gen k⟩]) [] cap (k + 1)).events⟩) ∧
    (∀ (gen : Nat → Nat) (q : List (Sound × E)) (srcs : List Source)
        (rec : List Nat) (cap k : Nat), (∀ j, gen j ≠ 0) →
      (allocLoop gen q srcs rec cap k).maxSources = cap) := by
refine ⟨?_, ?_, ?_, ?_, ?_, ?_⟩
· intro playing gen k0 tid st
  simp [step]
· intro gen snd e rest srcs rec cap k h
  cases rec with
  | nil => exact absurd rfl h
  | cons r rs => simp [allocLoop]
· intro gen snd e rest srcs cap k h
  simp [allocLoop, h]
· intro gen snd e rest srcs cap k h hz
  have hn : ¬(cap ≤ srcs.length) := not_le.mpr h
  simp [allocLoop, hn, hz]
· intro gen snd e rest srcs cap k h hz
  have hn : ¬(cap ≤ srcs.length) := not_le.mpr h
  simp [allocLoop, hn, hz]
· intro gen q
  induction q with
  | nil =>
    intro srcs rec cap k h
    rfl
  | cons p rest ih =>
    intro srcs rec cap k h
    rcases p with ⟨snd, e⟩
    cases rec with
    | nil =>
      by_cases hc : cap ≤ srcs.length
      · simp [allocLoop, hc]
      · simp [allocLoop, hc, h k, ih _ _ _ _ h]
    | cons r rs => simp [allocLoop, ih _ _ _ _ h]

/-- `Audio::Progress` (src/Audio.cpp:111-121): 1 when `loadQueue` is empty,
else `sounds.size() / (sounds.size() + loadQueue.size())` (the double
division idealised as exact rationals). -/
def progress (sounds : List (String × String)) (loadQueue : List String) : ℚ :=
if loadQueue.isEmpty then 1
else (sounds.length : ℚ) / ((sounds.length : ℚ) + (loadQueue.length : ℚ))

/-- C9: `Progress()` reports 1 once the remaining path list is empty,
otherwise loadedCount / (loadedCount + remainingCount), and the result
always lies in [0, 1]. -/
theorem c9_progress_ratio_in_unit_interval (sounds : List (String × String))
    (loadQueue : List String) :
    (loadQueue = [] → progress sounds loadQueue = 1) ∧
    (loadQueue ≠ [] → progress sounds loadQueue =
      (sounds.length : ℚ) / ((sounds.length : ℚ) + (loadQueue.length : ℚ))) ∧
    0 ≤ progress sounds loadQueue ∧ progress sounds loadQueue ≤ 1 := by
refine ⟨?_, ?_, ?_, ?_⟩
· intro h
  simp [progress, h]
· intro h
  simp [progress, h]
· rw [progress]
  split
  · norm_num
  · positivity
· rw [progress]
  split
  · exact le_refl 1
  · rename_i h
    have hlen : 1 ≤ (loadQueue.length : ℚ) := by
      have : loadQueue ≠ [] := by simpa [List.isEmpty_iff] using h
      have : 1 ≤ loadQueue.length := Nat.one_le_iff_ne_zero.mpr
        (by simpa [List.length_eq_zero] using this)
      exact_mod_cast this
    have hpos : (0 : ℚ) < (sounds.length : ℚ) + (loadQueue.length : ℚ) := by
      have : (0 : ℚ) ≤ (sounds.length : ℚ) := by positivity
      linarith
    rw [div_le_one hpos]
    linarith

/-- One statement of src/Audio.cpp that reads or writes the `deferred` map:
the function it is in, its source line, and whether `audioMutex` is held
when it runs. -/
structure DeferredAccess where
fn : String
line : Nat
locked : Bool
deriving DecidableEq

/-- The accesses to `deferred` in src/Audio.cpp with their lock state, read
off the source: `Audio::Play`'s non-main branch acquires `audioMutex` (line
185) before writing `deferred` (line 186); `Audio::Update` iterates
`deferred` (lines 159-160) and clears it (line 161) while no lock is
acquired anywhere in that function (lines 154-162). -/
def deferredAccesses : List DeferredAccess :=
[⟨"Audio::Play", 186, true⟩, ⟨"Audio::Update", 159, false⟩, ⟨"Audio::Update", 161, false⟩]

/-- C6 (refuted by the code): the deferred write in `Audio::Play` does hold
the mutex, but the once-per-frame merge in `Audio::Update` reads and clears
`deferred` with the mutex not held, so not every access to the deferred
queue occurs under the audio mutex. -/
theorem c6_update_accesses_deferred_without_lock :
    (∀ a ∈ deferredAccesses, a.fn = "Audio::Play" → a.locked = true) ∧
    (∀ a ∈ deferredAccesses, a.fn = "Audio::Update" → a.locked = false) ∧
    ¬(∀ a ∈ deferredAccesses, a.locked = true) := by decide

/-- The last index at which `sub` occurs in `l` (`std::string::rfind`). -/
def rfindSub (l sub : List Char) : Option Nat :=
((List.range (l.length + 1)).filter fun i => sub.isPrefixOf (l.drop i)).getLast?

/-- `Name(path)` (src/Audio.cpp:394-409): empty unless the path ends in
`.wav`; otherwise the text after the last occurrence of `"sounds/"`, up to
the extension, minus one trailing `~` if present; empty when `"sounds/"`
does not occur. -/
def soundName (path : String) : String :=
let l := path.toList
if path.length < 4 ∨ ¬(".wav".toList.isSuffixOf l) then ""
else
  match rfindSub l "sounds/".toList with
  | none => ""
  | some start0 =>
    let start := start0 + 7
    let e0 := l.length - 4
    let e := if l.getD (e0 - 1) ' ' = '~' then e0 - 1 else e0
    String.mk ((l.drop start).take (e - start))

/-- The loader's effect on the `sounds` table, `sounds[name].Load(path)`:
register `name`, recording the path it was decoded from. -/
def registerSound (name path : String) (table : List (String × String)) :
    List (String × String) := (name, path) :: table

/-- The loop of `Load()` (src/Audio.cpp:371-390). `path` is the local
variable (initially empty), `rq` the remaining `loadQueue` given back-first
(head = `loadQueue.back()`). One iteration decodes `path` when its name is
recognised, then pops the back of the queue; it returns if the queue became
empty, else the new back becomes `path`. `fuel` only bounds the recursion:
the loop pops one element per iteration, so `rq.length` iterations always
suffice and the `fuel = 0` case is unreachable from `loadModel`. -/
def loadRun (fuel : Nat) (path : String) (rq : List String)
    (table : List (String × String)) : List (String × String) :=
match fuel with
| 0 => table
| fuel + 1 =>
  let t := if soundName path = "" then table else registerSound (soundName path) path table
  match rq with
  | [] => t
  | [_] => t
  | _ :: next :: rest => loadRun fuel next (next :: rest) t

/-- `Load()` as `Init` starts it (src/Audio.cpp:103-105): the discovered
paths seed `loadQueue` in discovery order (so `loadQueue.back()` is the last
discovered path) and the thread runs only when the list is nonempty. -/
def loadModel (discovered : List String) : List (String × String) :=
loadRun (discovered.length + 1) "" discovered.reverse []

/-- C8 (refuted by the code): the first iteration of `Load()` runs with the
empty local `path` and then pops `loadQueue.back()` without ever decoding
it, so the last discovered path is never registered: with one recognised
discovered path nothing at all is loaded, and with two, only the first
discovered one is registered (the remaining processing does run back to
front and stops when the list empties). -/
theorem c8_last_discovered_path_never_loaded :
    soundName "sounds/boom.wav" = "boom" ∧
    loadModel ["sounds/boom.wav"] = [] ∧
    soundName "sounds/a.wav" = "a" ∧ soundName "sounds/b.wav" = "b" ∧
    loadModel ["sounds/a.wav", "sounds/b.wav"] = [("a", "sounds/a.wav")] := by
decide

end AudioModel
